import Mathlib

/-!
Shallow embedding of the tabris-js client runtime core:
`src/tabris/WidgetCollection.js` (widget collection / selector engine and the
`ClientStub` bridge) and `src/tabris/App.js` (`getResourceLocation` /
`normalizePath`).

JavaScript objects used as string-keyed records are embedded as association
lists (`List (String × _)`) with insertion-order semantics: `assocSet`
updates the first matching entry in place or appends (the key-order behaviour
of JS object assignment), `assocLookup` returns the first matching entry.
Primitive JS values (the only values the inspection filters compare with
`===` structurally) are embedded as `JsValue`.
-/

namespace Tabris

/-- Primitive JavaScript values appearing in bridge records and filters.
`===` on these is structural equality, so `DecidableEq` models it exactly. -/
inductive JsValue where
  | str (s : String)
  | num (n : Int)
  | bool (b : Bool)
  deriving DecidableEq, Repr

/-- A JS object holding widget properties: insertion-ordered association list. -/
abbrev PropMap := List (String × JsValue)

/-- First-match lookup in an association list (JS property read). -/
def assocLookup (l : List (String × α)) (k : String) : Option α :=
  match l with
  | [] => none
  | (k', v) :: rest => if k' = k then some v else assocLookup rest k

/-- JS property write: overwrite the first entry with key `k` in place,
or append a new entry when the key is absent. -/
def assocSet (l : List (String × α)) (k : String) (v : α) : List (String × α) :=
  match l with
  | [] => [(k, v)]
  | (k', v') :: rest =>
      if k' = k then (k', v) :: rest else (k', v') :: assocSet rest k v

/-- JS `delete obj[k]`: remove the entry for `k`. -/
def assocDelete (l : List (String × α)) (k : String) : List (String × α) :=
  l.filter (fun kv => kv.1 ≠ k)

/-- JS `Object.assign(base, add)`: copy each key of `add` into `base` in order,
later keys overwriting earlier ones. -/
def mergeProps (base add : PropMap) : PropMap :=
  add.foldl (fun acc kv => assocSet acc kv.1 kv.2) base

/-- One entry of the bridge operation log. The six operation kinds
(`create`/`get`/`set`/`call`/`listen`/`destroy`) populate different subsets
of the fields; absent fields are `none` (JS `undefined`). -/
structure CallRecord where
  op : String
  id : String
  type : Option String := none
  properties : Option PropMap := none
  property : Option String := none
  method : Option String := none
  parameters : Option PropMap := none
  event : Option String := none
  listen : Option Bool := none
  deriving DecidableEq, Repr

/-- Dynamic read `call[key]` restricted to the primitive-valued fields that a
filter can compare with `===` structurally. Object-valued fields
(`properties`, `parameters`) compare by reference in JS, so a primitive
filter value never equals them; returning `none` for them is faithful. -/
def recField (c : CallRecord) (k : String) : Option JsValue :=
  if k = "op" then some (.str c.op)
  else if k = "id" then some (.str c.id)
  else if k = "type" then c.type.map .str
  else if k = "property" then c.property.map .str
  else if k = "method" then c.method.map .str
  else if k = "event" then c.event.map .str
  else if k = "listen" then c.listen.map .bool
  else none

/-- A `NativeCallFilter`: the call matches when every key/value pair of the
filter equals the record's field (`filterProperties[key] !== call[key]`
rejects). -/
def matchesFilter (f : List (String × JsValue)) (c : CallRecord) : Bool :=
  f.all (fun kv => recField c kv.1 = some kv.2)

/-- Shadow state kept for one remote object id: `{type, properties}`.
The defensive placeholder created by `set` has no `type` field (`none`). -/
structure ObjRecord where
  type : Option String
  properties : PropMap
  deriving DecidableEq, Repr

/-- The `ClientStub` state: `$calls` (ordered operation log) and `$objects`
(shadow record store keyed by id). -/
structure ClientState where
  calls : List CallRecord
  objects : List (String × ObjRecord)
  deriving DecidableEq, Repr

namespace ClientStub

/-- The state of `new ClientStub()`. -/
def init : ClientState := { calls := [], objects := [] }

/-- Bridge `create(id, type, properties)`: append a `create` entry and register the
shadow record (last writer wins on redefinition). -/
def create (s : ClientState) (id type : String) (properties : PropMap) :
    ClientState :=
  { calls := s.calls ++
      [{ op := "create", id := id, type := some type,
         properties := some properties }],
    objects := assocSet s.objects id ⟨some type, properties⟩ }

/-- Bridge `get(id, property)`: append a `get` entry; no shadow-state change. -/
def get (s : ClientState) (id property : String) : ClientState :=
  { s with calls := s.calls ++
      [{ op := "get", id := id, property := some property }] }

/-- Bridge `set(id, properties)`: append a `set` entry; create a type-less
placeholder record when `id` is unknown; `Object.assign` the properties
into the record. -/
def set (s : ClientState) (id : String) (properties : PropMap) : ClientState :=
  let objects :=
    if (assocLookup s.objects id).isSome then s.objects
    else assocSet s.objects id ⟨none, []⟩
  let r := (assocLookup objects id).getD ⟨none, []⟩
  { calls := s.calls ++
      [{ op := "set", id := id, properties := some properties }],
    objects := assocSet objects id ⟨r.type, mergeProps r.properties properties⟩ }

/-- Bridge `call(id, method, parameters)`: append a `call` entry only. -/
def call (s : ClientState) (id method : String) (parameters : PropMap) :
    ClientState :=
  { s with calls := s.calls ++
      [{ op := "call", id := id, method := some method,
         parameters := some parameters }] }

/-- Bridge `listen(id, event, listen)`: append a `listen` entry only. -/
def listen (s : ClientState) (id event : String) (enabled : Bool) :
    ClientState :=
  { s with calls := s.calls ++
      [{ op := "listen", id := id, event := some event,
         listen := some enabled }] }

/-- Bridge `destroy(id)`: append a `destroy` entry and delete the shadow record.
The source performs no existence check. -/
def destroy (s : ClientState) (id : String) : ClientState :=
  { calls := s.calls ++ [{ op := "destroy", id := id }],
    objects := assocDelete s.objects id }

/-- Inspection `calls(filterProperties?)`: the ordered subsequence of the log matching
the filter; no filter returns the whole log. (The preceding
`tabris._nativeBridge.flush()` is a buffering barrier external to the stub;
the stub's own log is already up to date, so it is the identity here.) -/
def calls (s : ClientState) (filterProperties : Option (List (String × JsValue))) :
    List CallRecord :=
  match filterProperties with
  | none => s.calls
  | some f => s.calls.filter (matchesFilter f)

/-- Inspection `resetCalls()`: clear the log, keep the shadow records. -/
def resetCalls (s : ClientState) : ClientState := { s with calls := [] }

/-- Inspection `properties(id)`: the shadow property map for `id`, or the thrown
`'No object with id ' + id` error when no record exists. -/
def properties (s : ClientState) (id : String) : Except String PropMap :=
  match assocLookup s.objects id with
  | none => .error ("No object with id " ++ id)
  | some r => .ok r.properties

end ClientStub

/-- One bridge operation issued through the client, with its arguments. -/
inductive Op where
  | create (id type : String) (props : PropMap)
  | get (id property : String)
  | set (id : String) (props : PropMap)
  | call (id method : String) (params : PropMap)
  | listen (id event : String) (enabled : Bool)
  | destroy (id : String)

/-- Issue one operation against the stub. -/
def applyOp (s : ClientState) : Op → ClientState
  | .create id type props => ClientStub.create s id type props
  | .get id property => ClientStub.get s id property
  | .set id props => ClientStub.set s id props
  | .call id method params => ClientStub.call s id method params
  | .listen id event enabled => ClientStub.listen s id event enabled
  | .destroy id => ClientStub.destroy s id

/-- Issue a sequence of operations in order. -/
def runOps (s : ClientState) (ops : List Op) : ClientState :=
  ops.foldl applyOp s

/-- The log entry each operation appends. -/
def opRecord : Op → CallRecord
  | .create id type props =>
      { op := "create", id := id, type := some type, properties := some props }
  | .get id property => { op := "get", id := id, property := some property }
  | .set id props => { op := "set", id := id, properties := some props }
  | .call id method params =>
      { op := "call", id := id, method := some method,
        parameters := some params }
  | .listen id event enabled =>
      { op := "listen", id := id, event := some event, listen := some enabled }
  | .destroy id => { op := "destroy", id := id }

theorem assocLookup_assocSet (l : List (String × α)) (k k' : String) (v : α) :
    assocLookup (assocSet l k v) k' =
      if k = k' then some v else assocLookup l k' := by
  induction l with
  | nil => simp [assocSet, assocLookup]
  | cons kv rest ih =>
      obtain ⟨k0, v0⟩ := kv
      by_cases h0 : k0 = k
      · subst h0
        simp only [assocSet, if_pos rfl]
        by_cases h1 : k0 = k'
        · subst h1; simp [assocLookup]
        · simp [assocLookup, h1]
      · simp only [assocSet, if_neg h0]
        by_cases h1 : k0 = k'
        · subst h1
          have hk : ¬(k = k0) := fun h2 => h0 h2.symm
          simp [assocLookup, hk]
        · simp [assocLookup, h1, ih]

theorem assocLookup_assocDelete_self (l : List (String × α)) (k : String) :
    assocLookup (assocDelete l k) k = none := by
  induction l with
  | nil => rfl
  | cons kv rest ih =>
      obtain ⟨k0, v0⟩ := kv
      by_cases h0 : k0 = k
      · simp [assocDelete, h0] at ih ⊢; exact ih
      · simpa [assocDelete, assocLookup, h0] using ih

theorem assocDelete_eq_of_lookup_none (l : List (String × α)) (k : String)
    (h : assocLookup l k = none) : assocDelete l k = l := by
  induction l with
  | nil => rfl
  | cons kv rest ih =>
      obtain ⟨k0, v0⟩ := kv
      by_cases h0 : k0 = k
      · simp [assocLookup, h0] at h
      · simp [assocLookup, h0] at h
        simp [assocDelete, h0] at ih ⊢
        exact ih h

/-- The lookup semantics of `Object.assign`: a key is read from the *last*
occurrence in `add` when present there, otherwise from `base`. -/
theorem assocLookup_mergeProps (base add : PropMap) (k : String) :
    assocLookup (mergeProps base add) k =
      (assocLookup add.reverse k).or (assocLookup base k) := by
  induction add using List.reverseRecOn with
  | nil => simp [mergeProps, assocLookup]
  | append_singleton add kv ih =>
      obtain ⟨k0, v0⟩ := kv
      simp only [mergeProps, List.foldl_append, List.foldl_cons, List.foldl_nil,
        List.reverse_append, List.reverse_cons, List.reverse_nil,
        List.nil_append, List.cons_append]
      rw [show List.foldl (fun acc kv => assocSet acc kv.1 kv.2) base add
            = mergeProps base add from rfl]
      rw [assocLookup_assocSet]
      by_cases h0 : k0 = k
      · simp [assocLookup, h0]
      · simp [assocLookup, h0, ih]

theorem applyOp_calls (s : ClientState) (o : Op) :
    (applyOp s o).calls = s.calls ++ [opRecord o] := by
  cases o <;> rfl

theorem runOps_calls (s : ClientState) (ops : List Op) :
    (runOps s ops).calls = s.calls ++ ops.map opRecord := by
  induction ops generalizing s with
  | nil => simp [runOps]
  | cons o rest ih =>
      simp only [runOps, List.foldl_cons, List.map_cons]
      rw [show List.foldl applyOp (applyOp s o) rest = runOps (applyOp s o) rest from rfl,
        ih, applyOp_calls]
      simp

/-- A widget proxy as the selector engine reads it. Modelled from the spec:
the `Widget` class itself is not among the shown sources; per the spec a
proxy exposes an identity (`cid`), an `id` attribute, a `classList` (ordered
string tags), a runtime type (constructor) name together with the names of
its ancestor prototypes (`superTypes`, used for `instanceof` tests), and a
live ordered sequence of child proxies. -/
inductive Widget where
  | mk (cid : String) (id : String) (classList : List String)
      (typeName : String) (superTypes : List String)
      (children : List Widget)

def Widget.cid : Widget → String
  | .mk c _ _ _ _ _ => c

def Widget.id : Widget → String
  | .mk _ i _ _ _ _ => i

def Widget.classList : Widget → List String
  | .mk _ _ cl _ _ _ => cl

def Widget.typeName : Widget → String
  | .mk _ _ _ t _ _ => t

def Widget.superTypes : Widget → List String
  | .mk _ _ _ _ st _ => st

def Widget.children : Widget → List Widget
  | .mk _ _ _ _ _ ch => ch

/-- A selector argument as `select` receives it: a string, a widget
constructor reference (a `Function` whose prototype chain reaches the root
proxy type, per `isWidgetConstructor`), or an arbitrary predicate function
(a `Function` that does not). -/
inductive Selector where
  | str (s : String)
  | ctor (typeName : String)
  | pred (f : Widget → Bool)

/-- The check `selector === '*'` (string identity; a function selector is never
the string `'*'`). -/
def isStar : Selector → Bool
  | .str s => s = "*"
  | _ => false

/-- Source `createMatcher(selector)` together with `isFilter`: a predicate function
is used verbatim; a constructor reference becomes an `instanceof` test
(modelled from the spec: instance of the type or of a subclass, i.e. the
type name occurs in the proxy's type chain); strings dispatch on the first
character (`charAt(0)`), then on `'*'`, and otherwise compare the runtime
constructor name. -/
def createMatcher : Selector → Widget → Bool
  | .pred f => f
  | .ctor t => fun w => (w.typeName :: w.superTypes).contains t
  | .str s =>
      if s.data.head? = some '#' then fun w => s.drop 1 == w.id
      else if s.data.head? = some '.' then
        fun w => w.classList.contains (s.drop 1)
      else if s = "*" then fun _ => true
      else fun w => s == w.typeName

/-- One evaluation of the stateful filter produced by `getFilter`: `seen` is
the `matches` map of already-matched `cid`s; an already-matched widget is
skipped, a fresh match is recorded. Returns the verdict and the updated
map. -/
def runFilter (m : Widget → Bool) (seen : List String) (w : Widget) :
    Bool × List String :=
  if seen.contains w.cid then (false, seen)
  else if m w then (true, w.cid :: seen)
  else (false, seen)

/-- JS `array.filter(filter)` with the stateful dedup filter, evaluated left to
right as JS does. -/
def filterSelect (m : Widget → Bool) :
    List Widget → List String → List Widget × List String
  | [], seen => ([], seen)
  | w :: rest, seen =>
      let p := runFilter m seen w
      let q := filterSelect m rest p.2
      ((if p.1 then [w] else []) ++ q.1, q.2)

mutual

/-- The body of the `deepSelect` loop for one widget: test it (through the
stateful dedup filter), then recurse into its children regardless of the
verdict. -/
def deepSelectW (m : Widget → Bool) (w : Widget) (seen : List String) :
    List Widget × List String :=
  match w with
  | .mk c i cl t st ch =>
      let p := runFilter m seen (.mk c i cl t st ch)
      let cres := deepSelectL m ch p.2
      ((if p.1 then [Widget.mk c i cl t st ch] else []) ++ cres.1, cres.2)

/-- Source `deepSelect(result, iterable, filter)`: iterate the widgets left to
right, accumulating matches in pre-order. -/
def deepSelectL (m : Widget → Bool) (l : List Widget) (seen : List String) :
    List Widget × List String :=
  match l with
  | [] => ([], seen)
  | w :: rest =>
      let a := deepSelectW m w seen
      let b := deepSelectL m rest a.2
      (a.1 ++ b.1, b.2)

end

/-- Source `select(array, selector, deep)`: empty input yields `[]`;
the shallow `'*'` fast path returns a copy of the array (bypassing the dedup
filter); otherwise the stateful dedup filter wraps the matcher and runs deep
or shallow. -/
def select (array : List Widget) (selector : Selector) (deep : Bool) :
    List Widget :=
  if array.isEmpty then []
  else if isStar selector && !deep then array
  else if deep then (deepSelectL (createMatcher selector) array []).1
  else (filterSelect (createMatcher selector) array []).1

/-- The constructor's `selector || '*'` defaulting: an absent selector, or a
falsy one (the empty string), becomes `'*'`. -/
def defaultSelector : Option Selector → Selector
  | none => .str "*"
  | some (.str "") => .str "*"
  | some s => s

/-- Construction `new WidgetCollection(arr, selector, deep)`: the snapshot `_array`. -/
def newCollection (arr : List Widget) (selector : Option Selector)
    (deep : Bool) : List Widget :=
  select arr (defaultSelector selector) deep

/-- The concatenation of every member's immediate children
(`result.push.apply(result, widget.children())` over the members). -/
def childrenOf (arr : List Widget) : List Widget :=
  (arr.map Widget.children).flatten

namespace WidgetCollection

/-- Method `filter(selector)`: shallow re-selection over the snapshot. -/
def filter (arr : List Widget) (selector : Selector) : List Widget :=
  newCollection arr (some selector) false

/-- Method `children(selector?)`: concatenated immediate children, selector-filtered
shallowly. -/
def children (arr : List Widget) (selector : Option Selector) : List Widget :=
  newCollection (childrenOf arr) selector false

/-- Method `find(selector?)`: deep selection started from `children()`. -/
def find (arr : List Widget) (selector : Option Selector) : List Widget :=
  newCollection (children arr none) selector true

end WidgetCollection

mutual

/-- Pre-order enumeration of the subtree rooted at one widget: the widget,
then its children's subtrees left to right. -/
def preorderW : Widget → List Widget
  | .mk c i cl t st ch => Widget.mk c i cl t st ch :: preorderL ch

/-- Pre-order enumeration of a forest. -/
def preorderL : List Widget → List Widget
  | [] => []
  | w :: rest => preorderW w ++ preorderL rest

end

theorem runFilter_snd (m : Widget → Bool) (seen : List String) (w : Widget) :
    (runFilter m seen w).2 =
      if (runFilter m seen w).1 = true then w.cid :: seen else seen := by
  unfold runFilter
  split_ifs <;> simp_all

theorem runFilter_mem_snd (m : Widget → Bool) (seen : List String) (w : Widget)
    (x : String) (h : x ∈ seen) : x ∈ (runFilter m seen w).2 := by
  rw [runFilter_snd]
  split <;> simp [h]

theorem runFilter_fst_true (m : Widget → Bool) (seen : List String) (w : Widget)
    (h : (runFilter m seen w).1 = true) :
    w.cid ∉ seen ∧ m w = true ∧ (runFilter m seen w).2 = w.cid :: seen := by
  by_cases h1 : seen.contains w.cid = true
  · exfalso
    unfold runFilter at h
    rw [if_pos h1] at h
    simp at h
  · by_cases h2 : m w = true
    · have he : runFilter m seen w = (true, w.cid :: seen) := by
        unfold runFilter
        rw [if_neg h1, if_pos h2]
      exact ⟨by simpa using h1, h2, by rw [he]⟩
    · exfalso
      unfold runFilter at h
      rw [if_neg h1, if_neg h2] at h
      simp at h

theorem runFilter_not_seen (m : Widget → Bool) (seen : List String) (w : Widget)
    (h : w.cid ∉ seen) :
    runFilter m seen w = (m w, if m w = true then w.cid :: seen else seen) := by
  have h1 : ¬seen.contains w.cid = true := by simpa using h
  unfold runFilter
  rw [if_neg h1]
  by_cases h2 : m w = true
  · rw [if_pos h2, h2, if_pos rfl]
  · have h3 : m w = false := by simpa using h2
    rw [if_neg h2, h3]
    simp

theorem filterSelect_mem_snd (m : Widget → Bool) (l : List Widget) :
    ∀ seen x, x ∈ seen → x ∈ (filterSelect m l seen).2 := by
  induction l with
  | nil => intro seen x h; simpa [filterSelect] using h
  | cons w rest ih =>
      intro seen x h
      simp only [filterSelect]
      exact ih _ _ (runFilter_mem_snd m seen w x h)

theorem filterSelect_res (m : Widget → Bool) (l : List Widget) :
    ∀ seen v, v ∈ (filterSelect m l seen).1 →
      v.cid ∉ seen ∧ v.cid ∈ (filterSelect m l seen).2 := by
  induction l with
  | nil => intro seen v h; simp [filterSelect] at h
  | cons w rest ih =>
      intro seen v h
      simp only [filterSelect, List.mem_append] at h
      simp only [filterSelect]
      rcases h with h | h
      · by_cases hp : (runFilter m seen w).1 = true
        · rw [if_pos hp] at h
          simp only [List.mem_singleton] at h
          subst h
          obtain ⟨hns, -, hsnd⟩ := runFilter_fst_true m seen v hp
          refine ⟨hns, filterSelect_mem_snd m rest _ _ ?_⟩
          rw [hsnd]; simp
        · rw [if_neg hp] at h
          simp at h
      · obtain ⟨h1, h2⟩ := ih _ v h
        exact ⟨fun hx => h1 (runFilter_mem_snd m seen w _ hx), h2⟩

theorem filterSelect_nodup (m : Widget → Bool) (l : List Widget) :
    ∀ seen, (((filterSelect m l seen).1).map Widget.cid).Nodup := by
  induction l with
  | nil => intro seen; simp [filterSelect]
  | cons w rest ih =>
      intro seen
      simp only [filterSelect, List.map_append, List.nodup_append]
      refine ⟨?_, ih _, ?_⟩
      · by_cases hp : (runFilter m seen w).1 = true
        · rw [if_pos hp]; simp
        · rw [if_neg hp]; simp
      · intro x hx hy
        by_cases hp : (runFilter m seen w).1 = true
        · rw [if_pos hp] at hx
          simp only [List.map_cons, List.map_nil, List.mem_singleton] at hx
          subst hx
          obtain ⟨-, -, hsnd⟩ := runFilter_fst_true m seen w hp
          simp only [List.mem_map] at hy
          obtain ⟨v, hv, hcid⟩ := hy
          have h1 := (filterSelect_res m rest _ v hv).1
          rw [hsnd] at h1
          exact h1 (by simp [hcid])
        · rw [if_neg hp] at hx
          simp at hx

theorem deepSelect_mem_snd (m : Widget → Bool) :
    (∀ w seen, ∀ x ∈ seen, x ∈ (deepSelectW m w seen).2) ∧
    (∀ l seen, ∀ x ∈ seen, x ∈ (deepSelectL m l seen).2) := by
  refine deepSelectW.mutual_induct m
    (fun w seen => ∀ x ∈ seen, x ∈ (deepSelectW m w seen).2)
    (fun l seen => ∀ x ∈ seen, x ∈ (deepSelectL m l seen).2) ?_ ?_ ?_
  · intro seen c i cl t st ch p ih x hx
    simp only [deepSelectW]
    exact ih x (runFilter_mem_snd m seen _ x hx)
  · intro seen x hx
    simpa [deepSelectL] using hx
  · intro seen w rest a ihw ihl x hx
    simp only [deepSelectL]
    exact ihl x (ihw x hx)

theorem deepSelect_res (m : Widget → Bool) :
    (∀ w seen, ∀ v ∈ (deepSelectW m w seen).1,
      v.cid ∉ seen ∧ v.cid ∈ (deepSelectW m w seen).2) ∧
    (∀ l seen, ∀ v ∈ (deepSelectL m l seen).1,
      v.cid ∉ seen ∧ v.cid ∈ (deepSelectL m l seen).2) := by
  refine deepSelectW.mutual_induct m
    (fun w seen => ∀ v ∈ (deepSelectW m w seen).1,
      v.cid ∉ seen ∧ v.cid ∈ (deepSelectW m w seen).2)
    (fun l seen => ∀ v ∈ (deepSelectL m l seen).1,
      v.cid ∉ seen ∧ v.cid ∈ (deepSelectL m l seen).2) ?_ ?_ ?_
  · intro seen c i cl t st ch p ih v hv
    simp only [deepSelectW, List.mem_append] at hv
    simp only [deepSelectW]
    rcases hv with hv | hv
    · by_cases hp : (runFilter m seen (Widget.mk c i cl t st ch)).1 = true
      · rw [if_pos hp] at hv
        simp only [List.mem_singleton] at hv
        subst hv
        obtain ⟨hns, -, hsnd⟩ :=
          runFilter_fst_true m seen (Widget.mk c i cl t st ch) hp
        refine ⟨hns, (deepSelect_mem_snd m).2 ch _ _ ?_⟩
        rw [hsnd]; simp
      · rw [if_neg hp] at hv
        simp at hv
    · obtain ⟨h1, h2⟩ := ih v hv
      exact ⟨fun hx => h1 (runFilter_mem_snd m seen _ _ hx), h2⟩
  · intro seen v hv
    simp [deepSelectL] at hv
  · intro seen w rest a ihw ihl v hv
    simp only [deepSelectL, List.mem_append] at hv
    simp only [deepSelectL]
    rcases hv with hv | hv
    · obtain ⟨h1, h2⟩ := ihw v hv
      exact ⟨h1, (deepSelect_mem_snd m).2 rest _ _ h2⟩
    · obtain ⟨h1, h2⟩ := ihl v hv
      exact ⟨fun hx => h1 ((deepSelect_mem_snd m).1 w seen _ hx), h2⟩

theorem deepSelect_nodup (m : Widget → Bool) :
    (∀ w seen, (((deepSelectW m w seen).1).map Widget.cid).Nodup) ∧
    (∀ l seen, (((deepSelectL m l seen).1).map Widget.cid).Nodup) := by
  refine deepSelectW.mutual_induct m
    (fun w seen => (((deepSelectW m w seen).1).map Widget.cid).Nodup)
    (fun l seen => (((deepSelectL m l seen).1).map Widget.cid).Nodup) ?_ ?_ ?_
  · intro seen c i cl t st ch p ih
    simp only [deepSelectW, List.map_append, List.nodup_append]
    refine ⟨?_, ih, ?_⟩
    · by_cases hp : (runFilter m seen (Widget.mk c i cl t st ch)).1 = true
      · rw [if_pos hp]; simp
      · rw [if_neg hp]; simp
    · intro x hx hy
      by_cases hp : (runFilter m seen (Widget.mk c i cl t st ch)).1 = true
      · rw [if_pos hp] at hx
        simp only [List.map_cons, List.map_nil, List.mem_singleton] at hx
        subst hx
        obtain ⟨-, -, hsnd⟩ := runFilter_fst_true m seen _ hp
        simp only [List.mem_map] at hy
        obtain ⟨v, hv, hcid⟩ := hy
        have h1 := ((deepSelect_res m).2 ch _ v hv).1
        rw [hsnd] at h1
        exact h1 (by rw [hcid]; exact List.mem_cons_self _ _)
      · rw [if_neg hp] at hx
        simp at hx
  · intro seen
    simp [deepSelectL]
  · intro seen w rest a ihw ihl
    simp only [deepSelectL, List.map_append, List.nodup_append]
    refine ⟨ihw, ihl, ?_⟩
    intro x hx hy
    simp only [List.mem_map] at hx hy
    obtain ⟨v1, hv1, hc1⟩ := hx
    obtain ⟨v2, hv2, hc2⟩ := hy
    have h1 := ((deepSelect_res m).1 w seen v1 hv1).2
    have h2 := ((deepSelect_res m).2 rest _ v2 hv2).1
    rw [hc1] at h1
    rw [hc2] at h2
    exact h2 h1

theorem deepSelect_snd_bound (m : Widget → Bool) :
    (∀ w seen, ∀ x ∈ (deepSelectW m w seen).2,
      x ∈ seen ∨ x ∈ (preorderW w).map Widget.cid) ∧
    (∀ l seen, ∀ x ∈ (deepSelectL m l seen).2,
      x ∈ seen ∨ x ∈ (preorderL l).map Widget.cid) := by
  refine deepSelectW.mutual_induct m
    (fun w seen => ∀ x ∈ (deepSelectW m w seen).2,
      x ∈ seen ∨ x ∈ (preorderW w).map Widget.cid)
    (fun l seen => ∀ x ∈ (deepSelectL m l seen).2,
      x ∈ seen ∨ x ∈ (preorderL l).map Widget.cid) ?_ ?_ ?_
  · intro seen c i cl t st ch p ih x hx
    simp only [deepSelectW] at hx
    rcases ih x hx with h | h
    · rw [runFilter_snd] at h
      by_cases hp : (runFilter m seen (Widget.mk c i cl t st ch)).1 = true
      · rw [if_pos hp] at h
        rcases List.mem_cons.mp h with h | h
        · right
          simp [preorderW, h, Widget.cid]
        · exact Or.inl h
      · rw [if_neg hp] at h
        exact Or.inl h
    · right
      simp only [preorderW, List.map_cons, List.mem_cons]
      exact Or.inr h
  · intro seen x hx
    exact Or.inl (by simpa [deepSelectL] using hx)
  · intro seen w rest a ihw ihl x hx
    simp only [deepSelectL] at hx
    rcases ihl x hx with h | h
    · rcases ihw x h with h' | h'
      · exact Or.inl h'
      · right
        simp only [preorderL, List.map_append, List.mem_append]
        exact Or.inl h'
    · right
      simp only [preorderL, List.map_append, List.mem_append]
      exact Or.inr h

theorem deepSelect_filter_eq (m : Widget → Bool) :
    (∀ w seen, ((preorderW w).map Widget.cid).Nodup →
      (∀ x ∈ (preorderW w).map Widget.cid, x ∉ seen) →
      (deepSelectW m w seen).1 = (preorderW w).filter m) ∧
    (∀ l seen, ((preorderL l).map Widget.cid).Nodup →
      (∀ x ∈ (preorderL l).map Widget.cid, x ∉ seen) →
      (deepSelectL m l seen).1 = (preorderL l).filter m) := by
  refine deepSelectW.mutual_induct m
    (fun w seen => ((preorderW w).map Widget.cid).Nodup →
      (∀ x ∈ (preorderW w).map Widget.cid, x ∉ seen) →
      (deepSelectW m w seen).1 = (preorderW w).filter m)
    (fun l seen => ((preorderL l).map Widget.cid).Nodup →
      (∀ x ∈ (preorderL l).map Widget.cid, x ∉ seen) →
      (deepSelectL m l seen).1 = (preorderL l).filter m) ?_ ?_ ?_
  · intro seen c i cl t st ch p ih hnd hseen
    simp only [preorderW, List.map_cons, List.nodup_cons] at hnd
    obtain ⟨hcid, hnd'⟩ := hnd
    have hwseen : (Widget.mk c i cl t st ch).cid ∉ seen := by
      refine hseen _ ?_
      simp [preorderW]
    have hrf := runFilter_not_seen m seen (Widget.mk c i cl t st ch) hwseen
    have hsub : ∀ x ∈ (preorderL ch).map Widget.cid,
        x ∉ (runFilter m seen (Widget.mk c i cl t st ch)).2 := by
      intro x hx
      rw [hrf]
      intro hmem
      by_cases hm : m (Widget.mk c i cl t st ch) = true
      · rw [if_pos hm] at hmem
        rcases List.mem_cons.mp hmem with h | h
        · exact hcid (h ▸ hx)
        · exact hseen x (by simp [preorderW, hx]) h
      · rw [if_neg hm] at hmem
        exact hseen x (by simp [preorderW, hx]) hmem
    have hch := ih hnd' hsub
    simp only [deepSelectW, preorderW, List.filter_cons]
    rw [hch]
    have hfst : (runFilter m seen (Widget.mk c i cl t st ch)).1 =
        m (Widget.mk c i cl t st ch) := by rw [hrf]
    rw [hfst]
    by_cases hm : m (Widget.mk c i cl t st ch) = true
    · rw [hm]
      simp
    · have hm' : m (Widget.mk c i cl t st ch) = false := by simpa using hm
      rw [hm']
      simp
  · intro seen _ _
    simp [deepSelectL, preorderL]
  · intro seen w rest a ihw ihl hnd hseen
    simp only [preorderL, List.map_append, List.nodup_append] at hnd
    obtain ⟨hnd1, hnd2, hdisj⟩ := hnd
    have hseen1 : ∀ x ∈ (preorderW w).map Widget.cid, x ∉ seen := by
      intro x hx
      exact hseen x (by simp [preorderL, hx])
    have hseen2 : ∀ x ∈ (preorderL rest).map Widget.cid,
        x ∉ (deepSelectW m w seen).2 := by
      intro x hx hmem
      rcases (deepSelect_snd_bound m).1 w seen x hmem with h | h
      · exact hseen x (by simp [preorderL, hx]) h
      · exact hdisj h hx
    have hw := ihw hnd1 hseen1
    have hr := ihl hnd2 hseen2
    simp only [deepSelectL, preorderL, List.filter_append]
    rw [hw, hr]

/-- Applying `select` with the shallow `'*'` selector returns the input array. -/
theorem select_star_shallow (l : List Widget) :
    select l (.str "*") false = l := by
  unfold select
  by_cases h : l.isEmpty
  · rw [if_pos h]
    exact (List.isEmpty_iff.mp h).symm
  · rw [if_neg h, if_pos]
    simp [isStar]

/-- C1: for every sequence of bridge operations issued through the client,
`calls()` with no filter returns all logged records in issue order, and
`calls(filter)` returns exactly the ordered subsequence of records matching
every key/value pair of the filter. -/
theorem calls_log_order_and_filter (ops : List Op)
    (f : List (String × JsValue)) :
    ClientStub.calls (runOps ClientStub.init ops) none = ops.map opRecord ∧
    ClientStub.calls (runOps ClientStub.init ops) (some f) =
      (ops.map opRecord).filter (matchesFilter f) := by
  refine ⟨?_, ?_⟩ <;>
    simp [ClientStub.calls, runOps_calls, ClientStub.init]

/-- C2: after `create(id, type, props)` then `set(id, props2)`,
`properties(id)` returns the merge of `props2` into `props` (later keys
overwriting: a key reads from its last occurrence in `props2`, else from
`props`); after a further `destroy(id)`, `properties(id)` fails with the
not-found error naming `id`. -/
theorem properties_create_set_destroy (s : ClientState) (id type : String)
    (props props2 : PropMap) :
    ClientStub.properties
        (ClientStub.set (ClientStub.create s id type props) id props2) id
      = .ok (mergeProps props props2) ∧
    (∀ k, assocLookup (mergeProps props props2) k
      = (assocLookup props2.reverse k).or (assocLookup props k)) ∧
    ClientStub.properties
        (ClientStub.destroy
          (ClientStub.set (ClientStub.create s id type props) id props2) id) id
      = .error ("No object with id " ++ id) := by
  refine ⟨?_, fun k => assocLookup_mergeProps props props2 k, ?_⟩
  · simp [ClientStub.create, ClientStub.set, ClientStub.properties,
      assocLookup_assocSet]
  · simp [ClientStub.destroy, ClientStub.properties,
      assocLookup_assocDelete_self]

/-- C3 counterexample: on the fresh stub, no record exists for `"w1"`, yet
`destroy("w1")` does not fail — it completes normally, returning the state
with a `destroy` entry appended and the (empty) record store unchanged.
The source performs no existence check, so the call is never a caller
error. -/
theorem destroy_unknown_counterexample :
    assocLookup ClientStub.init.objects "w1" = none ∧
    ClientStub.destroy ClientStub.init "w1"
      = { calls := [{ op := "destroy", id := "w1" }], objects := [] } :=
  ⟨rfl, rfl⟩

/-- C3 amended: destroying an id with no Remote Object Record is not an
error: the call completes, appends a `destroy` entry to the log, and leaves
the record store unchanged. -/
theorem destroy_unknown_appends_and_preserves (s : ClientState) (id : String)
    (h : assocLookup s.objects id = none) :
    ClientStub.destroy s id
      = { calls := s.calls ++ [{ op := "destroy", id := id }],
          objects := s.objects } := by
  simp [ClientStub.destroy, assocDelete_eq_of_lookup_none s.objects id h]

/-- Witness for the C3 amended theorem at a concrete input. -/
theorem destroy_unknown_appends_and_preserves_witness :
    ClientStub.destroy ClientStub.init "w1"
      = { calls := ClientStub.init.calls ++ [{ op := "destroy", id := "w1" }],
          objects := ClientStub.init.objects } :=
  destroy_unknown_appends_and_preserves ClientStub.init "w1" rfl

/-- C8: `set(id, props)` on an unknown `id` does not fail: it produces a
placeholder record with no type, merges `props` into the empty mapping
(later keys overwriting), and appends a `set` entry to the log. -/
theorem set_unknown_id (s : ClientState) (id : String) (props : PropMap)
    (h : assocLookup s.objects id = none) :
    (ClientStub.set s id props).calls =
      s.calls ++ [{ op := "set", id := id, properties := some props }] ∧
    assocLookup (ClientStub.set s id props).objects id
      = some ⟨none, mergeProps [] props⟩ ∧
    ∀ k, assocLookup (mergeProps [] props) k = assocLookup props.reverse k := by
  refine ⟨rfl, ?_, fun k => ?_⟩
  · simp [ClientStub.set, h, assocLookup_assocSet]
  · rw [assocLookup_mergeProps]
    simp [assocLookup]

/-- Witness for C8 at a concrete input. -/
theorem set_unknown_id_witness :
    assocLookup (ClientStub.set ClientStub.init "w1"
        [("a", JsValue.str "1")]).objects "w1"
      = some ⟨none, mergeProps [] [("a", JsValue.str "1")]⟩ :=
  (set_unknown_id ClientStub.init "w1" [("a", JsValue.str "1")] rfl).2.1

/-- A concrete widget used in counterexamples and witnesses. -/
def wDup : Widget := .mk "c1" "x" ["y"] "Button" [] []

/-- C4 counterexample: constructing a collection from an input containing the
same proxy twice with the (default) `'*'` selector takes the shallow
fast path, which copies the array without the dedup filter — the result
contains the identity `"c1"` twice. -/
theorem select_star_duplicates :
    select [wDup, wDup] (.str "*") false = [wDup, wDup] ∧
    ¬(((select [wDup, wDup] (.str "*") false).map Widget.cid).Nodup) := by
  refine ⟨rfl, ?_⟩
  rw [show select [wDup, wDup] (.str "*") false = [wDup, wDup] from rfl]
  decide

/-- C4 amended: every selection that runs the stateful dedup filter — any
deep selection, and any shallow selection whose selector is not the `'*'`
string (the fast path that bypasses the filter) — contains each proxy
identity at most once, for every input sequence, even with duplicate
inputs or a traversal reaching a node twice. -/
theorem select_dedup (array : List Widget) (selector : Selector) (deep : Bool)
    (h : deep = true ∨ isStar selector = false) :
    ((select array selector deep).map Widget.cid).Nodup := by
  unfold select
  split_ifs with h1 h2 h3
  · simp
  · exfalso
    rcases h with h | h
    · subst h; simp at h2
    · rw [h] at h2; simp at h2
  · exact (deepSelect_nodup (createMatcher selector)).2 array []
  · exact filterSelect_nodup (createMatcher selector) array []

/-- Witness for the C4 amended theorem at a concrete input with duplicate
proxies. -/
theorem select_dedup_witness :
    ((select [wDup, wDup] (.str "*") true).map Widget.cid).Nodup :=
  select_dedup [wDup, wDup] (.str "*") true (Or.inl rfl)

/-- C6: `find(selector)` equals the pre-order depth-first enumeration of the
forest of the members' children (the members themselves are not visited),
filtered by the selector's matcher in visit order — provided the visited
proxies carry pairwise distinct identities (the process-uniqueness
invariant of `cid`; with clashing identities the dedup filter would
suppress later occurrences). -/
theorem find_preorder_filter (arr : List Widget) (selector : Option Selector)
    (h : ((preorderL (childrenOf arr)).map Widget.cid).Nodup) :
    WidgetCollection.find arr selector
      = (preorderL (childrenOf arr)).filter
          (createMatcher (defaultSelector selector)) := by
  unfold WidgetCollection.find WidgetCollection.children newCollection
  rw [show defaultSelector none = Selector.str "*" from rfl, select_star_shallow]
  unfold select
  by_cases h1 : (childrenOf arr).isEmpty
  · rw [if_pos h1]
    rw [show childrenOf arr = [] from List.isEmpty_iff.mp h1]
    simp [preorderL]
  · rw [if_neg h1, if_neg (by simp), if_pos rfl]
    exact (deepSelect_filter_eq (createMatcher (defaultSelector selector))).2
      (childrenOf arr) [] h (by simp)

def wTreeC : Widget := .mk "c" "cc" [] "Text" [] []
def wTreeA : Widget := .mk "a" "ax" [] "Button" [] [wTreeC]
def wTreeB : Widget := .mk "b" "" ["y"] "Text" [] []
def wTreeRoot : Widget := .mk "r" "" [] "Composite" [] [wTreeA, wTreeB]

/-- Witness for C6 on a concrete two-level tree. -/
theorem find_preorder_filter_witness :
    WidgetCollection.find [wTreeRoot] none
      = (preorderL (childrenOf [wTreeRoot])).filter
          (createMatcher (defaultSelector none)) :=
  find_preorder_filter [wTreeRoot] none (by decide)

/-- C7: string-selector matching: `'*'` matches every proxy; `'#'`-prefixed
selectors match exactly on the `id` attribute against the remainder;
`'.'`-prefixed selectors test membership of the remainder in `classList`
(containment, not substring); any other bare string matches exactly on the
runtime constructor name. -/
theorem string_selector_semantics (w : Widget) (s : String) :
    createMatcher (.str "*") w = true ∧
    (s.data.head? = some '#' →
      (createMatcher (.str s) w = true ↔ s.drop 1 = w.id)) ∧
    (s.data.head? = some '.' →
      (createMatcher (.str s) w = true ↔ s.drop 1 ∈ w.classList)) ∧
    (s.data.head? ≠ some '#' → s.data.head? ≠ some '.' → s ≠ "*" →
      (createMatcher (.str s) w = true ↔ s = w.typeName)) := by
  refine ⟨rfl, ?_, ?_, ?_⟩
  · intro hh
    simp [createMatcher, hh]
  · intro hh
    have hh' : ¬(s.data.head? = some '#') := by simp [hh]
    simp [createMatcher, hh, hh']
  · intro h1 h2 h3
    simp [createMatcher, h1, h2, h3]

def wSel : Widget := .mk "c9" "x" ["y"] "Button" [] []

/-- Witness for C7 at concrete selectors against a concrete widget. -/
theorem string_selector_semantics_witness :
    (createMatcher (.str "#x") wSel = true ↔ "#x".drop 1 = wSel.id) ∧
    (createMatcher (.str ".y") wSel = true ↔ ".y".drop 1 ∈ wSel.classList) ∧
    (createMatcher (.str "Button") wSel = true ↔ "Button" = wSel.typeName) :=
  ⟨(string_selector_semantics wSel "#x").2.1 (by decide),
   (string_selector_semantics wSel ".y").2.2.1 (by decide),
   (string_selector_semantics wSel "Button").2.2.2 (by decide) (by decide)
     (by decide)⟩

/-- JS `Array.prototype.forEach` over the snapshot with a per-member call
that may throw: the callback runs on the members left to right; a thrown
error propagates immediately and the remaining members are not visited.
The per-member call `f` abstracts the proxy method (`widget.set`,
`widget.on`, …, which are not among the shown sources); `σ` is the state it
observably acts on (e.g. the bridge `ClientState`, or an invocation
trace). -/
def forEachCall {σ ε : Type} (f : Widget → σ → Except ε σ) :
    List Widget → σ → Except ε σ
  | [], s => .ok s
  | w :: rest, s =>
      match f w s with
      | .ok s' => forEachCall f rest s'
      | .error e => .error e

namespace WidgetCollection

/-- Method `set()`: forEach over the members, then `return this`. -/
def set {σ ε : Type} (arr : List Widget) (f : Widget → σ → Except ε σ)
    (s : σ) : Except ε (σ × List Widget) :=
  (forEachCall f arr s).map (fun t => (t, arr))

/-- Method `on()`: forEach over the members, then `return this` (`on` is a Lean
keyword, hence the quoted name). -/
def «on» {σ ε : Type} (arr : List Widget) (f : Widget → σ → Except ε σ)
    (s : σ) : Except ε (σ × List Widget) :=
  (forEachCall f arr s).map (fun t => (t, arr))

/-- Method `off()`: forEach over the members, then `return this`. -/
def off {σ ε : Type} (arr : List Widget) (f : Widget → σ → Except ε σ)
    (s : σ) : Except ε (σ × List Widget) :=
  (forEachCall f arr s).map (fun t => (t, arr))

/-- Method `once()`: forEach over the members, then `return this`. -/
def once {σ ε : Type} (arr : List Widget) (f : Widget → σ → Except ε σ)
    (s : σ) : Except ε (σ × List Widget) :=
  (forEachCall f arr s).map (fun t => (t, arr))

/-- Method `trigger()`: forEach over the members, then `return this`. -/
def trigger {σ ε : Type} (arr : List Widget) (f : Widget → σ → Except ε σ)
    (s : σ) : Except ε (σ × List Widget) :=
  (forEachCall f arr s).map (fun t => (t, arr))

/-- Method `animate()`: forEach over the members; no return value. -/
def animate {σ ε : Type} (arr : List Widget) (f : Widget → σ → Except ε σ)
    (s : σ) : Except ε σ :=
  forEachCall f arr s

/-- Method `dispose()`: forEach over the members; no return value. -/
def dispose {σ ε : Type} (arr : List Widget) (f : Widget → σ → Except ε σ)
    (s : σ) : Except ε σ :=
  forEachCall f arr s

end WidgetCollection

/-- A per-member call that never throws. -/
def liftOk {σ ε : Type} (f : Widget → σ → σ) : Widget → σ → Except ε σ :=
  fun w s => .ok (f w s)

theorem forEachCall_liftOk {σ ε : Type} (f : Widget → σ → σ)
    (arr : List Widget) : ∀ s, forEachCall (liftOk (ε := ε) f) arr s
      = .ok (arr.foldl (fun t w => f w t) s) := by
  induction arr with
  | nil => intro s; simp [forEachCall]
  | cons w rest ih =>
      intro s
      simp only [forEachCall, liftOk, List.foldl_cons]
      exact ih (f w s)

theorem foldl_clientSet_calls (props : PropMap) (arr : List Widget) :
    ∀ st : ClientState,
      (arr.foldl (fun t w => ClientStub.set t w.cid props) st).calls
        = st.calls ++ arr.map
            (fun w => { op := "set", id := w.cid,
                        properties := some props : CallRecord }) := by
  induction arr with
  | nil => intro st; simp
  | cons w rest ih =>
      intro st
      simp only [List.foldl_cons, List.map_cons]
      rw [ih]
      rw [show (ClientStub.set st w.cid props).calls
        = st.calls ++ [{ op := "set", id := w.cid,
                         properties := some props : CallRecord }] from rfl]
      simp

theorem forEachCall_append_error {σ ε : Type} (f : Widget → σ → Except ε σ)
    (pre : List Widget) (w : Widget) (post : List Widget) :
    ∀ (s t : σ) (e : ε), forEachCall f pre s = .ok t → f w t = .error e →
      forEachCall f (pre ++ w :: post) s = .error e := by
  induction pre with
  | nil =>
      intro s t e hpre hw
      simp only [forEachCall, Except.ok.injEq] at hpre
      subst hpre
      simp [forEachCall, hw]
  | cons p pre' ih =>
      intro s t e hpre hw
      simp only [List.cons_append, forEachCall] at hpre ⊢
      cases hf : f p s with
      | ok s' =>
          rw [hf] at hpre
          exact ih s' t e hpre hw
      | error e' =>
          rw [hf] at hpre
          simp at hpre

/-- C9: each bulk dispatch operation applies the per-member call to every
member in the collection's iteration order (with a non-throwing call the
outcome is the left fold over the snapshot in order); `set`, `on`, `off`,
`once` and `trigger` return the same collection alongside the state for
chaining, while `animate` and `dispose` return the state only. The last
conjunct instantiates the per-member call with the bridge `set` (modelled
from the spec: a proxy's `set` issues a bridge `set` carrying its
identity): `collection.set` appends exactly one `set` log entry per member,
in iteration order. -/
theorem bulk_dispatch_order (σ ε : Type) (f : Widget → σ → σ)
    (arr : List Widget) (s : σ) (st : ClientState) (props : PropMap) :
    WidgetCollection.set arr (liftOk (ε := ε) f) s
      = .ok (arr.foldl (fun t w => f w t) s, arr) ∧
    WidgetCollection.«on» arr (liftOk (ε := ε) f) s
      = .ok (arr.foldl (fun t w => f w t) s, arr) ∧
    WidgetCollection.off arr (liftOk (ε := ε) f) s
      = .ok (arr.foldl (fun t w => f w t) s, arr) ∧
    WidgetCollection.once arr (liftOk (ε := ε) f) s
      = .ok (arr.foldl (fun t w => f w t) s, arr) ∧
    WidgetCollection.trigger arr (liftOk (ε := ε) f) s
      = .ok (arr.foldl (fun t w => f w t) s, arr) ∧
    WidgetCollection.animate arr (liftOk (ε := ε) f) s
      = .ok (arr.foldl (fun t w => f w t) s) ∧
    WidgetCollection.dispose arr (liftOk (ε := ε) f) s
      = .ok (arr.foldl (fun t w => f w t) s) ∧
    (arr.foldl (fun t w => ClientStub.set t w.cid props) st).calls
      = st.calls ++ arr.map
          (fun w => { op := "set", id := w.cid,
                      properties := some props : CallRecord }) := by
  refine ⟨?_, ?_, ?_, ?_, ?_, ?_, ?_, foldl_clientSet_calls props arr st⟩ <;>
    simp [WidgetCollection.set, WidgetCollection.«on», WidgetCollection.off,
      WidgetCollection.once, WidgetCollection.trigger,
      WidgetCollection.animate, WidgetCollection.dispose, forEachCall_liftOk,
      Except.map]

def wBulk1 : Widget := .mk "w1" "" [] "Composite" [] []
def wBulk2 : Widget := .mk "w2" "" [] "Composite" [] []

/-- A per-member call that records each invocation in a trace and throws on
the member with identity `"w1"`, carrying the trace inside the error. -/
def failOnW1 : Widget → List String → Except (List String) (List String) :=
  fun w tr => if w.cid = "w1" then .error (tr ++ [w.cid]) else .ok (tr ++ [w.cid])

/-- C5 counterexample: over the collection `[w1, w2]` with a per-member call
that fails on `w1`, bulk `set` returns the error whose invocation trace is
`["w1"]` — the subsequent member `w2` was never invoked, so a failure does
abort the remaining members instead of continuing. -/
theorem bulk_dispatch_failure_counterexample :
    WidgetCollection.set [wBulk1, wBulk2] failOnW1 [] = .error ["w1"] ∧
    (["w1"] : List String) ≠ ["w1", "w2"] :=
  ⟨rfl, by decide⟩

/-- C5 amended: when the per-member call fails on some member, the members
before it are invoked in order (hypothesis `hpre`), the failure surfaces
verbatim as the result of the bulk operation — exactly as it would for a
single-proxy call, with no suppression layer — and the members after the
failing one are never invoked (the result is independent of `post`). -/
theorem bulk_dispatch_failure (σ ε : Type) (f : Widget → σ → Except ε σ)
    (pre : List Widget) (w : Widget) (post : List Widget) (s t : σ) (e : ε)
    (hpre : forEachCall f pre s = .ok t) (hw : f w t = .error e) :
    WidgetCollection.set (pre ++ w :: post) f s = .error e ∧
    WidgetCollection.«on» (pre ++ w :: post) f s = .error e ∧
    WidgetCollection.off (pre ++ w :: post) f s = .error e ∧
    WidgetCollection.once (pre ++ w :: post) f s = .error e ∧
    WidgetCollection.trigger (pre ++ w :: post) f s = .error e ∧
    WidgetCollection.animate (pre ++ w :: post) f s = .error e ∧
    WidgetCollection.dispose (pre ++ w :: post) f s = .error e := by
  have hcore := forEachCall_append_error f pre w post s t e hpre hw
  refine ⟨?_, ?_, ?_, ?_, ?_, ?_, ?_⟩ <;>
    simp [WidgetCollection.set, WidgetCollection.«on», WidgetCollection.off,
      WidgetCollection.once, WidgetCollection.trigger,
      WidgetCollection.animate, WidgetCollection.dispose, hcore, Except.map]

/-- Witness for the C5 amended theorem: the member before the failing one is
invoked (trace `"w2"`), the error carries the trace `["w2", "w1"]`, and the
trailing member is never invoked. -/
theorem bulk_dispatch_failure_witness :
    WidgetCollection.set [wBulk2, wBulk1, wBulk2] failOnW1 []
      = .error ["w2", "w1"] :=
  (bulk_dispatch_failure (List String) (List String) failOnW1
    [wBulk2] wBulk1 [wBulk2] [] ["w2"] ["w2", "w1"] rfl rfl).1

/-- JS `path.split(/\/+/)` on the path's character list: maximal runs of
`'/'` act as separators; a leading or trailing run contributes an empty
boundary segment, exactly as the regex split does. -/
def splitRunsC : List Char → List (List Char)
  | [] => [[]]
  | c :: rest =>
      if c = '/' then
        match rest with
        | '/' :: _ => splitRunsC rest
        | _ => [] :: splitRunsC rest
      else
        match splitRunsC rest with
        | [] => [[c]]
        | seg :: segs => (c :: seg) :: segs

/-- Splitting at every single `'/'` — the plain reading of "slash-separated
segments" used on the specification side of C10. -/
def splitSingleC : List Char → List (List Char)
  | [] => [[]]
  | c :: rest =>
      if c = '/' then [] :: splitSingleC rest
      else
        match splitSingleC rest with
        | [] => [[c]]
        | seg :: segs => (c :: seg) :: segs

theorem splitRunsC_ne_nil : ∀ cs, splitRunsC cs ≠ [] := by
  intro cs
  induction cs with
  | nil => simp [splitRunsC]
  | cons c rest ih =>
      by_cases hc : c = '/'
      · subst hc
        cases rest with
        | nil => simp [splitRunsC]
        | cons c2 rest2 =>
            by_cases hc2 : c2 = '/'
            · subst hc2
              simpa [splitRunsC] using ih
            · simp [splitRunsC, hc2]
      · simp only [splitRunsC, if_neg hc]
        cases h : splitRunsC rest <;> simp

theorem splitSingleC_ne_nil : ∀ cs, splitSingleC cs ≠ [] := by
  intro cs
  induction cs with
  | nil => simp [splitSingleC]
  | cons c rest ih =>
      by_cases hc : c = '/'
      · simp [splitSingleC, hc]
      · simp only [splitSingleC, if_neg hc]
        cases h : splitSingleC rest <;> simp

/-- A character list starting with `'/'` splits (on runs) into a list whose
first segment is empty. -/
theorem splitRunsC_head_slash : ∀ rest,
    (splitRunsC ('/' :: rest)).head? = some [] := by
  intro rest
  induction rest with
  | nil => rfl
  | cons c2 rest2 ih =>
      by_cases hc2 : c2 = '/'
      · subst hc2
        simpa [splitRunsC] using ih
      · simp [splitRunsC, hc2]

/-- The two splits agree after dropping empty segments, and they always
produce the same first segment. -/
theorem splitRuns_single_rel (cs : List Char) :
    (splitRunsC cs).filter (fun s => !s.isEmpty)
      = (splitSingleC cs).filter (fun s => !s.isEmpty) ∧
    (splitRunsC cs).head? = (splitSingleC cs).head? := by
  induction cs with
  | nil => exact ⟨rfl, rfl⟩
  | cons c rest ih =>
      obtain ⟨ihf, ihh⟩ := ih
      by_cases hc : c = '/'
      · subst hc
        cases rest with
        | nil => exact ⟨rfl, rfl⟩
        | cons c2 rest2 =>
            by_cases hc2 : c2 = '/'
            · subst hc2
              have hruns : splitRunsC ('/' :: '/' :: rest2)
                  = splitRunsC ('/' :: rest2) := by
                simp [splitRunsC]
              have hsingle : splitSingleC ('/' :: '/' :: rest2)
                  = [] :: splitSingleC ('/' :: rest2) := by
                simp [splitSingleC]
              constructor
              · rw [hruns, hsingle, List.filter_cons]
                simpa using ihf
              · rw [hruns, hsingle, splitRunsC_head_slash rest2]
                rfl
            · have hruns : splitRunsC ('/' :: c2 :: rest2)
                  = [] :: splitRunsC (c2 :: rest2) := by
                simp [splitRunsC, hc2]
              have hsingle : splitSingleC ('/' :: c2 :: rest2)
                  = [] :: splitSingleC (c2 :: rest2) := by
                simp [splitSingleC]
              constructor
              · rw [hruns, hsingle, List.filter_cons, List.filter_cons]
                simpa using ihf
              · rw [hruns, hsingle]
                rfl
      · cases hr : splitRunsC rest with
        | nil => exact absurd hr (splitRunsC_ne_nil rest)
        | cons a ta =>
            cases hs : splitSingleC rest with
            | nil => exact absurd hs (splitSingleC_ne_nil rest)
            | cons b tb =>
                have hab : a = b := by
                  rw [hr, hs] at ihh
                  simpa using ihh
                subst hab
                have htail : ta.filter (fun s => !s.isEmpty)
                    = tb.filter (fun s => !s.isEmpty) := by
                  rw [hr, hs, List.filter_cons, List.filter_cons] at ihf
                  by_cases he : a.isEmpty
                  · simpa [he] using ihf
                  · have he' : (!a.isEmpty) = true := by simp [he]
                    rw [if_pos he', if_pos he'] at ihf
                    simpa using ihf
                have hruns : splitRunsC (c :: rest) = (c :: a) :: ta := by
                  simp [splitRunsC, hc, hr]
                have hsingle : splitSingleC (c :: rest) = (c :: a) :: tb := by
                  simp [splitSingleC, hc, hs]
                constructor
                · rw [hruns, hsingle, List.filter_cons, List.filter_cons]
                  rw [htail]
                · rw [hruns, hsingle]
                  rfl

/-- The arrow function inside `normalizePath`'s `.map`: a `'..'` segment
throws, a `'.'` segment becomes the empty segment, anything else passes
through. The thrown message interpolates `toValueString(path)` (a console
helper outside the shown sources, modelled here as the raw path). -/
def normSegment (path : String) (seg : List Char) :
    Except String (List Char) :=
  if seg = "..".data then
    .error ("Path " ++ path ++ " must not contain \"..\"")
  else if seg = ".".data then .ok []
  else .ok seg

/-- JS `array.map(callback)` with a callback that can throw: elements are
processed left to right and a thrown error propagates immediately. -/
def mapME (f : List Char → Except String (List Char)) :
    List (List Char) → Except String (List (List Char))
  | [] => .ok []
  | s :: rest =>
      match f s with
      | .error e => .error e
      | .ok b => (mapME f rest).map (fun bs => b :: bs)

/-- JS `join('/')`. -/
def joinSlash : List (List Char) → List Char
  | [] => []
  | [s] => s
  | s :: t :: rest => s ++ '/' :: joinSlash (t :: rest)

/-- Source `normalizePath(path)` from `App.js`: split on runs of slashes, map each
segment (throwing on `'..'`, blanking `'.'`), drop falsy (empty) segments,
rejoin with `'/'`. -/
def normalizePath (path : String) : Except String String :=
  (mapME (normSegment path) (splitRunsC path.data)).map
    (fun segs => String.mk (joinSlash (segs.filter (fun s => !s.isEmpty))))

/-- Source `getResourceLocation(path)`: with the lazily-read `_resourceBaseUrl`
passed in (it comes from `_nativeGet`, outside this core), `null`/`undefined`
yields the base URL alone, otherwise `'/' + normalizePath('' + path)` is
appended. -/
def getResourceLocation (base : String) (path : Option String) :
    Except String String :=
  match path with
  | none => .ok base
  | some p => (normalizePath p).map (fun n => base ++ "/" ++ n)

/-- The value `normalizePath`'s segment map produces on a non-throwing
segment. -/
def dotmap (seg : List Char) : List Char :=
  if seg = ".".data then [] else seg

/-- C10's specification-side normal form, from the claim's words: the
slash-separated segments (split at each single `'/'`), with `'.'` segments
and empty segments dropped — dropping empties is what collapses runs of
slashes — rejoined with `'/'`. -/
def specNormalize (p : String) : String :=
  String.mk (joinSlash ((splitSingleC p.data).filter
    (fun s => !s.isEmpty && s != ".".data)))

theorem mapME_ok (path : String) (l : List (List Char))
    (h : "..".data ∉ l) :
    mapME (normSegment path) l = .ok (l.map dotmap) := by
  induction l with
  | nil => rfl
  | cons seg rest ih =>
      simp only [List.mem_cons, not_or] at h
      obtain ⟨h1, h2⟩ := h
      have h1' : ¬(seg = "..".data) := fun hseg => h1 (by rw [hseg])
      simp only [mapME, normSegment, if_neg h1']
      by_cases hdot : seg = ".".data
      · rw [if_pos hdot, ih h2]
        simp [Except.map, dotmap, hdot]
      · rw [if_neg hdot, ih h2]
        simp [Except.map, dotmap, hdot]

theorem mapME_error (path : String) (l : List (List Char))
    (h : "..".data ∈ l) :
    mapME (normSegment path) l
      = .error ("Path " ++ path ++ " must not contain \"..\"") := by
  induction l with
  | nil => simp at h
  | cons seg rest ih =>
      by_cases hseg : seg = "..".data
      · simp [mapME, normSegment, hseg]
      · have h2 : "..".data ∈ rest := by
          rcases List.mem_cons.mp h with h' | h'
          · exact absurd h'.symm hseg
          · exact h'
        simp only [mapME, normSegment, if_neg hseg]
        by_cases hdot : seg = ".".data
        · rw [if_pos hdot, ih h2]
          rfl
        · rw [if_neg hdot, ih h2]
          rfl

theorem filter_map_dotmap (l : List (List Char)) :
    (l.map dotmap).filter (fun s => !s.isEmpty)
      = l.filter (fun s => !s.isEmpty && s != ".".data) := by
  induction l with
  | nil => rfl
  | cons seg rest ih =>
      simp only [List.map_cons, List.filter_cons]
      by_cases hdot : seg = ".".data
      · subst hdot
        simp [dotmap, ih]
      · by_cases hemp : seg = []
        · subst hemp
          simp [dotmap, ih]
        · have hne : seg.isEmpty = false := by
            cases seg with
            | nil => exact absurd rfl hemp
            | cons a b => rfl
          simp [dotmap, hdot, hne, ih]

theorem filter_nonempty_dot (cs : List Char) :
    (splitRunsC cs).filter (fun s => !s.isEmpty && s != ".".data)
      = (splitSingleC cs).filter (fun s => !s.isEmpty && s != ".".data) := by
  have e1 : ∀ l : List (List Char),
      l.filter (fun s => !s.isEmpty && s != ".".data)
        = (l.filter (fun s => !s.isEmpty)).filter (fun s => s != ".".data) := by
    intro l
    rw [List.filter_filter]
    apply List.filter_congr
    intro a _
    rw [Bool.and_comm]
  rw [e1, e1, (splitRuns_single_rel cs).1]

theorem mem_runs_iff_single (cs : List Char) :
    "..".data ∈ splitRunsC cs ↔ "..".data ∈ splitSingleC cs := by
  have h := (splitRuns_single_rel cs).1
  constructor <;> intro hm
  · have hf : "..".data ∈ (splitRunsC cs).filter (fun s => !s.isEmpty) :=
      List.mem_filter.mpr ⟨hm, by decide⟩
    rw [h] at hf
    exact (List.mem_filter.mp hf).1
  · have hf : "..".data ∈ (splitSingleC cs).filter (fun s => !s.isEmpty) :=
      List.mem_filter.mpr ⟨hm, by decide⟩
    rw [← h] at hf
    exact (List.mem_filter.mp hf).1

/-- C10: `getResourceLocation(path)` throws when some slash-separated
segment of the path is `'..'`; otherwise it returns the resource base URL,
`'/'`, and the path normalized by dropping `'.'` segments and empty
segments (collapsing slash runs); a `null`/`undefined` path yields the
base URL alone. -/
theorem getResourceLocation_spec (base p : String) :
    ("..".data ∈ splitSingleC p.data →
      getResourceLocation base (some p)
        = .error ("Path " ++ p ++ " must not contain \"..\"")) ∧
    ("..".data ∉ splitSingleC p.data →
      getResourceLocation base (some p)
        = .ok (base ++ "/" ++ specNormalize p)) ∧
    getResourceLocation base none = .ok base := by
  refine ⟨?_, ?_, rfl⟩
  · intro h
    have h' : "..".data ∈ splitRunsC p.data := (mem_runs_iff_single p.data).mpr h
    have hn : normalizePath p
        = .error ("Path " ++ p ++ " must not contain \"..\"") := by
      unfold normalizePath
      rw [mapME_error p _ h']
      rfl
    show (normalizePath p).map (fun n => base ++ "/" ++ n) = _
    rw [hn]
    rfl
  · intro h
    have h' : "..".data ∉ splitRunsC p.data :=
      fun hm => h ((mem_runs_iff_single p.data).mp hm)
    have hn : normalizePath p
        = .ok (String.mk (joinSlash
            (((splitRunsC p.data).map dotmap).filter (fun s => !s.isEmpty)))) := by
      unfold normalizePath
      rw [mapME_ok p _ h']
      rfl
    show (normalizePath p).map (fun n => base ++ "/" ++ n) = _
    rw [hn, filter_map_dotmap, filter_nonempty_dot]
    rfl

/-- Witness for C10: a traversing path is rejected; a path with `'.'`
segments and doubled slashes is normalized onto the base URL. -/
theorem getResourceLocation_spec_witness :
    getResourceLocation "app:" (some "a/../b")
      = .error ("Path " ++ "a/../b" ++ " must not contain \"..\"") ∧
    getResourceLocation "app:" (some "a/./b//c")
      = .ok ("app:" ++ "/" ++ specNormalize "a/./b//c") :=
  ⟨(getResourceLocation_spec "app:" "a/../b").1 (by decide),
   (getResourceLocation_spec "app:" "a/./b//c").2.1 (by decide)⟩

end Tabris
